import Mathlib

/-!
Verification development for the payroll application (`src/app.py`).

The file shallow-embeds the computational core of the program:

* the attendance status click-cycle of `ui_attendance_calendar`
  (`cycle`, `advance`);
* the bulk range-fill operation on the calendar draft (`setDay`, `rangeSet`);
* the "Save to database" reconciliation loop of `ui_attendance_calendar`
  (`delDay`, `commitDay`, `commit`), with the durable attendance ledger
  modelled as a list of rows (SQLite assigns each row a fresh surrogate id
  and no UNIQUE constraint exists on `(emp_id, day)`, so a plain list of
  row values is the faithful model; `DELETE` is a filter, `INSERT` an
  append);
* the per-employee payroll arithmetic of `payroll_df`
  (`payroll_calc`, `round2`, `payroll_row`, `payroll_df`), with Python
  floats modelled as rationals;
* the payslip range queries of `ui_payslip` (`bonus_in_range`,
  `bonus_query`, `sum_bonus` and the deduction analogues), with the SQL
  `ORDER BY day` realised as a sort and ISO date strings modelled as
  naturals carrying the same total order.
-/

/-- `LEAVE_DIVISOR = 30` from `src/app.py` line 25. -/
def LEAVE_DIVISOR : ℚ := 30

/-! ### Attendance status cycle (`ui_attendance_calendar`, lines 445-465)

A calendar cell holds either one of the four status strings or Python
`None` (an unset day), hence `Option String`.  The code keeps the cycle
as the literal list `["Present","Absent","Half Day","Weekly Off",None]`. -/

/-- The click cycle `cycle = ["Present","Absent","Half Day","Weekly Off",None]`. -/
def cycle : List (Option String) :=
  [some "Present", some "Absent", some "Half Day", some "Weekly Off", none]

/-- One click on a day button:
`idx = cycle.index(cur) if cur in cycle else len(cycle)-1;
 calmap[d] = cycle[(idx+1) % len(cycle)]`. -/
def advance (cur : Option String) : Option String :=
  let idx := if cur ∈ cycle then cycle.indexOf cur else cycle.length - 1
  cycle.getD ((idx + 1) % cycle.length) none

/-! ### Draft bulk edits (lines 474-481)

The draft `calmap` maps a day number to its status-or-`None`; for the
point and range update operations we view it as a function
`Nat → Option String`. -/

/-- One dictionary assignment `calmap[d] = s`. -/
def setDay (m : Nat → Option String) (d : Nat) (s : String) : Nat → Option String :=
  fun x => if x = d then some s else m x

/-- The "Apply Range" handler:
`a, b = min(d_start, d_end), max(d_start, d_end);
 for d in range(a, b+1): calmap[d] = rstatus`. -/
def rangeSet (m : Nat → Option String) (dstart dend : Nat) (s : String) :
    Nat → Option String :=
  (List.range' (min dstart dend) (max dstart dend + 1 - min dstart dend)).foldl
    (fun acc d => setDay acc d s) m

/-! ### Attendance reconciliation ("Save to database", lines 483-497) -/

/-- A calendar date; the database stores it as an ISO `TEXT` produced by
`date(year, month, d).isoformat()`, which is injective in `(y, m, d)`. -/
structure Date where
  y : Nat
  m : Nat
  d : Nat
deriving DecidableEq

/-- One row of the `attendance` table (the surrogate `id` column is
omitted: it never influences queries or deletes in the program). -/
structure AttRec where
  day : Date
  emp_id : String
  status : String
  note : String
deriving DecidableEq

/-- `DELETE FROM attendance WHERE emp_id=? AND day=?`. -/
def delDay (L : List AttRec) (e : String) (dd : Date) : List AttRec :=
  L.filter (fun r => decide (¬(r.emp_id = e ∧ r.day = dd)))

/-- One iteration of the save loop for day `d` holding draft value `s`:
if `s` is `None`, delete when overwriting and move on; otherwise delete
when overwriting, then insert `(dstr, emp_id, s, "calendar")`.  The
`INSERT OR IGNORE` always inserts because the `attendance` table has no
uniqueness constraint other than the autoincrement primary key. -/
def commitDay (ov : Bool) (e : String) (y mo : Nat) (L : List AttRec)
    (d : Nat) (s : Option String) : List AttRec :=
  match s with
  | none => if ov then delDay L e ⟨y, mo, d⟩ else L
  | some st =>
      (if ov then delDay L e ⟨y, mo, d⟩ else L) ++ [⟨⟨y, mo, d⟩, e, st, "calendar"⟩]

/-- The whole save loop `for d, s in calmap.items(): ...` over the draft's
item list (a Python dict iterates its distinct keys in insertion order). -/
def commit (ov : Bool) (e : String) (y mo : Nat)
    (draft : List (Nat × Option String)) (L : List AttRec) : List AttRec :=
  draft.foldl (fun acc p => commitDay ov e y mo acc p.1 p.2) L

/-! ### Payroll arithmetic (`payroll_df`, lines 645-693)

Monetary values are Python floats; we model them as rationals.  Nullable
DB columns are `Option ℚ`; `float(x or 0)` on a nullable column is
`Option.getD 0`. -/

/-- The columns of `employees` used by `payroll_df`/`ui_payslip`. -/
structure Employee where
  emp_id : String
  name : String
  salary_type : String
  monthly_salary : Option ℚ
  per_day_rate : Option ℚ
  active : Bool

/-- Per-employee aggregates for the period: the attendance `SUM(CASE ...)`
counts and the bonus/deduction sums, all 0 when no rows exist
(`fillna(0)` after the left merges). -/
structure Tally where
  present : Nat
  half_day : Nat
  absent : Nat
  bonus : ℚ
  deduction : ℚ

/-- The exact (pre-rounding) monetary quantities of one payroll row. -/
structure PayRow where
  base : ℚ
  leave : ℚ
  gross : ℚ
  net : ℚ

/-- The row body of `payroll_df`:
`if salary_type == "Monthly": base = monthly_salary or 0;
   leave = (base / LEAVE_DIVISOR) * (absent + 0.5 * half_day)
 else: rate = per_day_rate or 0; base = (present + 0.5 * half_day) * rate;
   leave = 0.0`
then `gross = base - leave + bonus; net = gross - deduction`. -/
def payroll_calc (e : Employee) (t : Tally) : PayRow :=
  let bl : ℚ × ℚ :=
    if e.salary_type = "Monthly" then
      let base := e.monthly_salary.getD 0
      (base, (base / LEAVE_DIVISOR) * ((t.absent : ℚ) + (1/2) * (t.half_day : ℚ)))
    else
      let rate := e.per_day_rate.getD 0
      (((t.present : ℚ) + (1/2) * (t.half_day : ℚ)) * rate, 0)
  let gross := bl.1 - bl.2 + t.bonus
  let net := gross - t.deduction
  ⟨bl.1, bl.2, gross, net⟩

/-- Python's `round(x, 2)` modelled over the rationals. -/
def round2 (q : ℚ) : ℚ := (round (q * 100) : ℚ) / 100

/-- One output row of `payroll_df` (its `rows.append([...])`), monetary
fields rounded to 2 decimals at this point only. -/
structure OutRow where
  emp_id : String
  name : String
  salary_type : String
  present : Nat
  half : Nat
  absent : Nat
  base : ℚ
  leaveDed : ℚ
  bonus : ℚ
  deduction : ℚ
  gross : ℚ
  net : ℚ

/-- Builds the output row from the exact quantities. -/
def payroll_row (e : Employee) (t : Tally) : OutRow :=
  let c := payroll_calc e t
  ⟨e.emp_id, e.name, e.salary_type, t.present, t.half_day, t.absent,
    round2 c.base, round2 c.leave, round2 t.bonus, round2 t.deduction,
    round2 c.gross, round2 c.net⟩

/-- `payroll_df` over a roster: one row per employee with `active = 1`. -/
def payroll_df (emps : List Employee) (tally : String → Tally) : List OutRow :=
  (emps.filter (fun e => e.active)).map (fun e => payroll_row e (tally e.emp_id))

/-! ### Payslip range queries (`ui_payslip`, lines 793-811)

Bonus/deduction rows carry an ISO date `TEXT`; SQL compares and orders
those strings lexicographically, which on ISO dates coincides with
chronological order, so days are modelled as naturals with their usual
order. -/

/-- One row of the `bonuses` table. -/
structure BonusRec where
  day : Nat
  emp_id : String
  amount : ℚ
  note : Option String

/-- One row of the `deductions` table. -/
structure DedRec where
  day : Nat
  emp_id : String
  dtype : String
  amount : ℚ
  note : Option String

/-- The `WHERE emp_id=? AND day>=? AND day<=?` row selection on bonuses. -/
def bonus_in_range (led : List BonusRec) (e : String) (dfrom dto : Nat) :
    List BonusRec :=
  led.filter (fun r => decide (r.emp_id = e ∧ dfrom ≤ r.day ∧ r.day ≤ dto))

/-- The bonus query of `ui_payslip`: selected rows `ORDER BY day`. -/
def bonus_query (led : List BonusRec) (e : String) (dfrom dto : Nat) :
    List BonusRec :=
  List.insertionSort (fun a b => a.day ≤ b.day) (bonus_in_range led e dfrom dto)

/-- `sum_bonus = bon["amount"].sum()` (0 for an empty frame). -/
def sum_bonus (led : List BonusRec) (e : String) (dfrom dto : Nat) : ℚ :=
  ((bonus_query led e dfrom dto).map (fun r => r.amount)).sum

/-- The `WHERE emp_id=? AND day>=? AND day<=?` row selection on deductions. -/
def ded_in_range (led : List DedRec) (e : String) (dfrom dto : Nat) :
    List DedRec :=
  led.filter (fun r => decide (r.emp_id = e ∧ dfrom ≤ r.day ∧ r.day ≤ dto))

/-- The deduction query of `ui_payslip`: selected rows `ORDER BY day`. -/
def ded_query (led : List DedRec) (e : String) (dfrom dto : Nat) :
    List DedRec :=
  List.insertionSort (fun a b => a.day ≤ b.day) (ded_in_range led e dfrom dto)

/-- `sum_ded = ded["amount"].sum()` (0 for an empty frame). -/
def sum_ded (led : List DedRec) (e : String) (dfrom dto : Nat) : ℚ :=
  ((ded_query led e dfrom dto).map (fun r => r.amount)).sum

example : advance (some "Present") = some "Absent" := by decide
example : advance none = some "Present" := by decide
example : advance (some "Bogus") = some "Present" := by decide
example : commit false "E1" 2024 1 [(1, some "Present")] [] =
    [⟨⟨2024, 1, 1⟩, "E1", "Present", "calendar"⟩] := by decide

/-! ### Helper lemmas -/

/-- Unfolding one step of a `foldl` of `setDay` over `List.range'`. -/
theorem foldl_setDay_range' (s : String) :
    ∀ (n a : Nat) (m : Nat → Option String) (d : Nat),
      ((List.range' a n).foldl (fun acc x => setDay acc x s) m) d =
        if a ≤ d ∧ d < a + n then some s else m d := by
  intro n
  induction n with
  | zero =>
    intro a m d
    have hno : ¬(a ≤ d ∧ d < a) := by omega
    simp [List.range', hno]
  | succ k ih =>
    intro a m d
    rw [List.range'_succ, List.foldl_cons, ih (a + 1) (setDay m a s) d]
    simp only [setDay]
    split_ifs <;> first | rfl | omega

/-! ### C1, C2, C5 — payroll row formulas -/

/-- C1: for a Monthly-salaried active employee, the payroll row is present in
the output of `payroll_df`, its base equals the monthly salary, and its leave
deduction is `(monthly_salary / 30) * (absentDays + 0.5 * halfDays)`, the
divisor being the fixed constant 30. -/
theorem C1_monthly_base_and_leave (emps : List Employee) (tally : String → Tally)
    (e : Employee) (v : ℚ) (hmem : e ∈ emps) (hact : e.active = true)
    (hm : e.salary_type = "Monthly") (hv : e.monthly_salary = some v) :
    payroll_row e (tally e.emp_id) ∈ payroll_df emps tally ∧
    (payroll_calc e (tally e.emp_id)).base = v ∧
    (payroll_calc e (tally e.emp_id)).leave =
      (v / 30) * (((tally e.emp_id).absent : ℚ) + (1/2) * ((tally e.emp_id).half_day : ℚ)) := by
  refine ⟨?_, ?_, ?_⟩
  · exact List.mem_map_of_mem _ (List.mem_filter.mpr ⟨hmem, hact⟩)
  · simp [payroll_calc, hm, hv]
  · simp [payroll_calc, hm, hv, LEAVE_DIVISOR]

/-- Witness for C1 at the worked example: `monthly_salary = 30000`,
`absentDays = 3`, `halfDays = 2` gives `Base = 30000` and
`LeaveDeduction = 4000`. -/
theorem C1_monthly_base_and_leave_witness :
    (payroll_calc ⟨"E1", "A", "Monthly", some 30000, none, true⟩ ⟨0, 2, 3, 0, 0⟩).base = 30000 ∧
    (payroll_calc ⟨"E1", "A", "Monthly", some 30000, none, true⟩ ⟨0, 2, 3, 0, 0⟩).leave = 4000 := by
  have h := C1_monthly_base_and_leave [⟨"E1", "A", "Monthly", some 30000, none, true⟩]
    (fun _ => ⟨0, 2, 3, 0, 0⟩) ⟨"E1", "A", "Monthly", some 30000, none, true⟩ 30000
    (List.mem_singleton.mpr rfl) rfl rfl rfl
  refine ⟨h.2.1, ?_⟩
  rw [h.2.2]
  show (30000 / 30 : ℚ) * (((3 : Nat) : ℚ) + 1/2 * ((2 : Nat) : ℚ)) = 4000
  norm_num

/-- C2: for a PerDay-salaried active employee, the payroll row is present in
the output of `payroll_df`, its base equals
`per_day_rate * (presentDays + 0.5 * halfDays)` and its leave deduction is 0. -/
theorem C2_perday_base_and_leave (emps : List Employee) (tally : String → Tally)
    (e : Employee) (v : ℚ) (hmem : e ∈ emps) (hact : e.active = true)
    (hp : e.salary_type = "PerDay") (hv : e.per_day_rate = some v) :
    payroll_row e (tally e.emp_id) ∈ payroll_df emps tally ∧
    (payroll_calc e (tally e.emp_id)).base =
      v * (((tally e.emp_id).present : ℚ) + (1/2) * ((tally e.emp_id).half_day : ℚ)) ∧
    (payroll_calc e (tally e.emp_id)).leave = 0 := by
  have hne : ¬(e.salary_type = "Monthly") := by rw [hp]; decide
  refine ⟨?_, ?_, ?_⟩
  · exact List.mem_map_of_mem _ (List.mem_filter.mpr ⟨hmem, hact⟩)
  · simp [payroll_calc, hne, hv]
    ring
  · simp [payroll_calc, hne]

/-- Witness for C2 at the worked example: `per_day_rate = 500`,
`presentDays = 20`, `halfDays = 2` gives `Base = 10500`. -/
theorem C2_perday_base_and_leave_witness :
    (payroll_calc ⟨"E2", "B", "PerDay", none, some 500, true⟩ ⟨20, 2, 0, 0, 0⟩).base = 10500 ∧
    (payroll_calc ⟨"E2", "B", "PerDay", none, some 500, true⟩ ⟨20, 2, 0, 0, 0⟩).leave = 0 := by
  have h := C2_perday_base_and_leave [⟨"E2", "B", "PerDay", none, some 500, true⟩]
    (fun _ => ⟨20, 2, 0, 0, 0⟩) ⟨"E2", "B", "PerDay", none, some 500, true⟩ 500
    (List.mem_singleton.mpr rfl) rfl rfl rfl
  refine ⟨?_, h.2.2⟩
  rw [h.2.1]
  show (500 : ℚ) * (((20 : Nat) : ℚ) + 1/2 * ((2 : Nat) : ℚ)) = 10500
  norm_num

/-- C5: for every payroll row, the exact (unrounded) quantities satisfy
`net = base - leave + bonus - deduction`, and rounding to 2 decimals is
applied only when the output row fields are produced. -/
theorem C5_net_identity (e : Employee) (t : Tally) :
    (payroll_calc e t).net =
      (payroll_calc e t).base - (payroll_calc e t).leave + t.bonus - t.deduction ∧
    (payroll_row e t).net = round2 ((payroll_calc e t).net) ∧
    (payroll_row e t).base = round2 ((payroll_calc e t).base) ∧
    (payroll_row e t).leaveDed = round2 ((payroll_calc e t).leave) ∧
    (payroll_row e t).gross = round2 ((payroll_calc e t).gross) :=
  ⟨rfl, rfl, rfl, rfl, rfl⟩

/-! ### C6, C7 — status cycle -/

/-- C6: applying `advance` exactly five times to any member of the status
cycle returns that same status. -/
theorem C6_cycle_closure (s : Option String) (hs : s ∈ cycle) :
    advance (advance (advance (advance (advance s)))) = s := by
  simp only [cycle, List.mem_cons, List.mem_singleton, List.not_mem_nil, or_false] at hs
  rcases hs with rfl | rfl | rfl | rfl | rfl <;> decide

/-- Witness for C6 at the concrete status `Present`. -/
theorem C6_cycle_closure_witness :
    some "Present" ∈ cycle ∧
    advance (advance (advance (advance (advance (some "Present"))))) = some "Present" :=
  ⟨by decide, C6_cycle_closure (some "Present") (by decide)⟩

/-- C7 counterexample: the input `"Bogus"` is not a member of the cycle, yet
`advance` returns `Present` (`Unset` wrapped forward), not `Unset` as the
claim states. -/
theorem C7_counterexample :
    some "Bogus" ∉ cycle ∧
    advance (some "Bogus") = some "Present" ∧ advance (some "Bogus") ≠ none := by
  refine ⟨by decide, by decide, by decide⟩

/-- C7 amended: for every input that is not a member of the cycle, `advance`
treats it as the LAST element of the cycle (`Unset` itself, index
`len(cycle)-1`), so it wraps around and returns `Present`, not `Unset`. -/
theorem C7_invalid_input_gives_present (cur : Option String) (h : cur ∉ cycle) :
    advance cur = some "Present" := by
  unfold advance
  rw [if_neg h]
  rfl

/-- Witness for the amended C7 at the concrete invalid input `"Bogus"`. -/
theorem C7_invalid_input_gives_present_witness :
    some "Bogus" ∉ cycle ∧ advance (some "Bogus") = some "Present" :=
  ⟨by decide, C7_invalid_input_gives_present (some "Bogus") (by decide)⟩

/-! ### C10 — range fill -/

/-- C10: "Apply Range" sets exactly the days in the inclusive interval
`[min(a,b), max(a,b)]` to the chosen status, leaves every other day of the
draft unchanged, and is insensitive to the order of its two endpoints. -/
theorem C10_range_set (m : Nat → Option String) (p q : Nat) (s : String) :
    (∀ d, rangeSet m p q s d =
        if min p q ≤ d ∧ d ≤ max p q then some s else m d) ∧
    rangeSet m p q s = rangeSet m q p s := by
  constructor
  · intro d
    rw [rangeSet, foldl_setDay_range']
    have hmm : min p q + (max p q + 1 - min p q) = max p q + 1 := by
      have := min_le_max (a := p) (b := q)
      omega
    rw [hmm]
    simp only [Nat.lt_succ_iff]
  · unfold rangeSet
    rw [min_comm p q, max_comm p q]

/-! ### Helper lemmas for the reconciliation loop -/

/-- The row selection `emp_id=? AND day=?` as a Bool predicate. -/
def dayPred (e : String) (dd : Date) : AttRec → Bool :=
  fun r => decide (r.emp_id = e ∧ r.day = dd)

/-- Filtering by `q` first does not change a later filter by `p` when `p`
implies `q`. -/
theorem filter_of_filter_imp {α : Type} (p q : α → Bool)
    (h : ∀ a, p a = true → q a = true) (l : List α) :
    (l.filter q).filter p = l.filter p := by
  rw [List.filter_filter]
  refine List.filter_congr ?_
  intro a _
  cases hpa : p a with
  | false => simp
  | true => simp [h a hpa]

/-- After deleting the `(e, dd)` rows, no `(e, dd)` row remains. -/
theorem filter_delDay_self (L : List AttRec) (e : String) (dd : Date) :
    (delDay L e dd).filter (dayPred e dd) = [] := by
  unfold delDay dayPred
  rw [List.filter_filter]
  have hff : ∀ r : AttRec,
      (decide (r.emp_id = e ∧ r.day = dd) && decide (¬(r.emp_id = e ∧ r.day = dd))) = false := by
    intro r
    by_cases hr : r.emp_id = e ∧ r.day = dd <;> simp [hr]
  simp [hff]

/-- Processing a day `d' ≠ d` leaves the `(e, ⟨y, mo, d⟩)` rows untouched. -/
theorem commitDay_filter_other (ov : Bool) (e : String) (y mo : Nat)
    (L : List AttRec) (d' : Nat) (v : Option String) (d : Nat) (hne : d' ≠ d) :
    (commitDay ov e y mo L d' v).filter (dayPred e ⟨y, mo, d⟩) =
      L.filter (dayPred e ⟨y, mo, d⟩) := by
  have hdel : ∀ M : List AttRec,
      (delDay M e ⟨y, mo, d'⟩).filter (dayPred e ⟨y, mo, d⟩) =
        M.filter (dayPred e ⟨y, mo, d⟩) := by
    intro M
    apply filter_of_filter_imp
    intro r hr
    simp only [dayPred, decide_eq_true_eq] at hr
    simp only [decide_eq_true_eq]
    rintro ⟨-, hd2⟩
    rw [hr.2] at hd2
    exact hne (congrArg Date.d hd2).symm
  have hsingle : ∀ st, List.filter (dayPred e ⟨y, mo, d⟩)
      [⟨⟨y, mo, d'⟩, e, st, "calendar"⟩] = [] := by
    intro st
    simp [dayPred, Date.mk.injEq, hne]
  cases v with
  | none =>
    cases ov with
    | false => rfl
    | true => exact hdel L
  | some st =>
    cases ov with
    | false =>
      show List.filter _ (L ++ [⟨⟨y, mo, d'⟩, e, st, "calendar"⟩]) = _
      rw [List.filter_append, hsingle, List.append_nil]
    | true =>
      show List.filter _ (delDay L e ⟨y, mo, d'⟩ ++ [⟨⟨y, mo, d'⟩, e, st, "calendar"⟩]) = _
      rw [List.filter_append, hsingle, List.append_nil, hdel]

/-- Processing a run of days none of which is `d` leaves the
`(e, ⟨y, mo, d⟩)` rows untouched. -/
theorem commit_filter_other (ov : Bool) (e : String) (y mo : Nat) (d : Nat) :
    ∀ (l : List (Nat × Option String)) (L : List AttRec),
      (∀ p ∈ l, p.1 ≠ d) →
      (commit ov e y mo l L).filter (dayPred e ⟨y, mo, d⟩) =
        L.filter (dayPred e ⟨y, mo, d⟩) := by
  intro l
  induction l with
  | nil => intro L _; rfl
  | cons p l ih =>
    intro L h
    have h1 : p.1 ≠ d := h p (List.mem_cons_self p l)
    have h2 : ∀ q ∈ l, q.1 ≠ d := fun q hq => h q (List.mem_cons_of_mem p hq)
    have hstep : commit ov e y mo (p :: l) L =
        commit ov e y mo l (commitDay ov e y mo L p.1 p.2) := rfl
    rw [hstep, ih _ h2, commitDay_filter_other ov e y mo L p.1 p.2 d h1]

/-- Processing day `d` itself in overwrite mode leaves exactly the draft's
row for `d` (or no row when the draft holds `None`). -/
theorem commitDay_filter_self (e : String) (y mo : Nat) (L : List AttRec)
    (d : Nat) (v : Option String) :
    (commitDay true e y mo L d v).filter (dayPred e ⟨y, mo, d⟩) =
      (v.map (fun st => (⟨⟨y, mo, d⟩, e, st, "calendar"⟩ : AttRec))).toList := by
  cases v with
  | none => exact filter_delDay_self L e ⟨y, mo, d⟩
  | some st =>
    show List.filter _ (delDay L e ⟨y, mo, d⟩ ++ [⟨⟨y, mo, d⟩, e, st, "calendar"⟩]) = _
    rw [List.filter_append, filter_delDay_self]
    simp [dayPred]

/-! ### C4, C8, C3 — reconciliation -/

/-- C4: after an Overwrite-policy commit, the durable ledger restricted to
the draft's employee and any day of the draft equals exactly the draft: one
row carrying the draft's status (with the `"calendar"` provenance note) when
the day is set, no row when the day is `Unset`; in particular at most one
row per (employee, day). -/
theorem C4_overwrite_exact (e : String) (y mo : Nat)
    (draft : List (Nat × Option String)) (L : List AttRec) (d : Nat) (v : Option String)
    (hnd : (draft.map Prod.fst).Nodup) (hmem : (d, v) ∈ draft) :
    (commit true e y mo draft L).filter (dayPred e ⟨y, mo, d⟩) =
      (v.map (fun st => (⟨⟨y, mo, d⟩, e, st, "calendar"⟩ : AttRec))).toList ∧
    ((commit true e y mo draft L).filter (dayPred e ⟨y, mo, d⟩)).length ≤ 1 := by
  obtain ⟨l1, l2, rfl⟩ := List.append_of_mem hmem
  have hd2 : d ∉ l2.map Prod.fst := by
    rw [List.map_append, List.map_cons] at hnd
    have h2 := hnd.of_append_right
    exact (List.nodup_cons.mp h2).1
  have hl2 : ∀ p ∈ l2, p.1 ≠ d := by
    intro p hp hpd
    exact hd2 (hpd ▸ List.mem_map_of_mem Prod.fst hp)
  have hsp : commit true e y mo (l1 ++ (d, v) :: l2) L =
      commit true e y mo l2 (commitDay true e y mo (commit true e y mo l1 L) d v) := by
    unfold commit
    rw [List.foldl_append]
    rfl
  have hmain : (commit true e y mo (l1 ++ (d, v) :: l2) L).filter (dayPred e ⟨y, mo, d⟩) =
      (v.map (fun st => (⟨⟨y, mo, d⟩, e, st, "calendar"⟩ : AttRec))).toList := by
    rw [hsp, commit_filter_other true e y mo d l2 _ hl2, commitDay_filter_self]
  refine ⟨hmain, ?_⟩
  rw [hmain]
  cases v <;> simp

/-- Witness for C4: overwrite-committing the draft `{1 ↦ Present, 2 ↦ Unset}`
over a ledger holding a conflicting row for day 1 and an unrelated row. -/
theorem C4_overwrite_exact_witness :
    ((1, some "Present") ∈ ([(1, some "Present"), (2, none)] : List (Nat × Option String))) ∧
    (commit true "E1" 2024 1 [(1, some "Present"), (2, none)]
        [⟨⟨2024, 1, 1⟩, "E1", "Absent", "x"⟩, ⟨⟨2023, 12, 5⟩, "E2", "Present", "y"⟩]).filter
        (dayPred "E1" ⟨2024, 1, 1⟩) = [⟨⟨2024, 1, 1⟩, "E1", "Present", "calendar"⟩] := by
  refine ⟨by decide, ?_⟩
  have h := C4_overwrite_exact "E1" 2024 1 [(1, some "Present"), (2, none)]
    [⟨⟨2024, 1, 1⟩, "E1", "Absent", "x"⟩, ⟨⟨2023, 12, 5⟩, "E2", "Present", "y"⟩] 1 (some "Present")
    (by decide) (by decide)
  exact h.1

/-- C8: committing an all-`Unset` draft under the Merge policy
(`overwrite = false`) leaves the durable ledger exactly as it was. -/
theorem C8_merge_unset_frame (e : String) (y mo : Nat) :
    ∀ (draft : List (Nat × Option String)), (∀ p ∈ draft, p.2 = none) →
      ∀ L : List AttRec, commit false e y mo draft L = L := by
  intro draft
  induction draft with
  | nil => intro _ L; rfl
  | cons p l ih =>
    intro h L
    have hp : p.2 = none := h p (List.mem_cons_self p l)
    have hl : ∀ q ∈ l, q.2 = none := fun q hq => h q (List.mem_cons_of_mem p hq)
    have hstep : commit false e y mo (p :: l) L =
        commit false e y mo l (commitDay false e y mo L p.1 p.2) := rfl
    rw [hstep, hp]
    exact ih hl L

/-- Witness for C8: an all-`Unset` two-day draft merge-committed over a
one-row ledger leaves that ledger unchanged. -/
theorem C8_merge_unset_frame_witness :
    (∀ p ∈ ([(1, (none : Option String)), (2, none)] : List (Nat × Option String)), p.2 = none) ∧
    commit false "E1" 2024 1 [(1, none), (2, none)]
        [⟨⟨2024, 1, 1⟩, "E1", "Present", "z"⟩] = [⟨⟨2024, 1, 1⟩, "E1", "Present", "z"⟩] :=
  ⟨by decide, C8_merge_unset_frame "E1" 2024 1 [(1, none), (2, none)] (by decide) _⟩

/-- C3 at its failing input: committing the draft `{1 ↦ Present}` twice
under the Merge policy (`overwrite = false`) does not reproduce the durable
state of a single commit — the second run inserts a duplicate row, because
the `attendance` table has no UNIQUE constraint on `(emp_id, day)`, so the
loop's `INSERT OR IGNORE` never ignores. -/
theorem C3_merge_commit_not_idempotent :
    commit false "E1" 2024 1 [(1, some "Present")]
        (commit false "E1" 2024 1 [(1, some "Present")] []) ≠
      commit false "E1" 2024 1 [(1, some "Present")] [] := by decide

/-! ### C9 — payslip itemization -/

instance : IsTotal BonusRec (fun a b => a.day ≤ b.day) :=
  ⟨fun a b => Nat.le_total a.day b.day⟩

instance : IsTrans BonusRec (fun a b => a.day ≤ b.day) :=
  ⟨fun _ _ _ h h' => Nat.le_trans h h'⟩

instance : IsTotal DedRec (fun a b => a.day ≤ b.day) :=
  ⟨fun a b => Nat.le_total a.day b.day⟩

instance : IsTrans DedRec (fun a b => a.day ≤ b.day) :=
  ⟨fun _ _ _ h h' => Nat.le_trans h h'⟩

/-- C9: the payslip's itemized bonus and deduction lists contain exactly the
records of the requested employee whose day lies in the inclusive range
(a permutation of the corresponding row selections), are sorted by day
ascending, and `totalBonus` / `totalDeduction` equal the sums of the amounts
of those lists. -/
theorem C9_payslip_itemized (bled : List BonusRec) (dled : List DedRec)
    (e : String) (dfrom dto : Nat) :
    (bonus_query bled e dfrom dto).Perm (bonus_in_range bled e dfrom dto) ∧
    List.Sorted (fun a b => a.day ≤ b.day) (bonus_query bled e dfrom dto) ∧
    sum_bonus bled e dfrom dto = ((bonus_query bled e dfrom dto).map (fun r => r.amount)).sum ∧
    sum_bonus bled e dfrom dto = ((bonus_in_range bled e dfrom dto).map (fun r => r.amount)).sum ∧
    (ded_query dled e dfrom dto).Perm (ded_in_range dled e dfrom dto) ∧
    List.Sorted (fun a b => a.day ≤ b.day) (ded_query dled e dfrom dto) ∧
    sum_ded dled e dfrom dto = ((ded_query dled e dfrom dto).map (fun r => r.amount)).sum ∧
    sum_ded dled e dfrom dto = ((ded_in_range dled e dfrom dto).map (fun r => r.amount)).sum := by
  refine ⟨List.perm_insertionSort _ _, List.sorted_insertionSort _ _, rfl, ?_,
          List.perm_insertionSort _ _, List.sorted_insertionSort _ _, rfl, ?_⟩
  · exact ((List.perm_insertionSort _ _).map _).sum_eq
  · exact ((List.perm_insertionSort _ _).map _).sum_eq
